import Mathlib

/-!
# Verification of the link-extraction engine

A shallow embedding of `src/link_extractor.py` (class `LinkExtractor`), the
link-extraction core of the repository: URL normalization and validation
(`_clean_url`, `_is_valid_url`), domain comparison (`_is_same_domain`),
page fetching with error classification (`fetch_page`), and the multi-strategy
link discovery of `extract_links` / `_extract_links_from_scripts`.

The Python code delegates URL parsing to `urllib.parse` (`urlparse`,
`urljoin`) and structured-data parsing to `json.loads`; both are modelled
here over `List Char` / `String`, following the CPython implementations.
Modelling notes for `urllib.parse`:
* `urlsplit`'s scheme detection, netloc extraction, fragment/query splitting
  and the "Invalid IPv6 URL" `ValueError` (mismatched `[` / `]` in the
  netloc) are modelled; a raised `ValueError` is modelled as `none`.
* Version-dependent sanitization of control characters (WHATWG C0 stripping
  and `\t\r\n` removal) is elided, as is the non-ASCII NFKC netloc check and
  the bracketed-IPv6-host grammar check: the model is faithful for inputs
  free of control characters and of bracketed hosts.
* `str.lower()` is modelled as ASCII lowercasing (non-ASCII case folding
  elided).
HTML parsing is external to the repository (BeautifulSoup); as in the spec's
Discoverer contract, discovery operates on the parsed document, modelled as
a list of elements carrying tag, attributes, and script text.
-/

/-! ## Character and list utilities (Python string operations) -/

/-- ASCII lowercase of one character, as `str.lower` acts on ASCII. -/
def asciiLowerChar (c : Char) : Char :=
  if 'A' ≤ c ∧ c ≤ 'Z' then Char.ofNat (c.toNat + 32) else c

/-- ASCII lowercase of a character list. -/
def asciiLowerL (l : List Char) : List Char := l.map asciiLowerChar

/-- Python `needle in hay` substring test. -/
def containsSub (needle : List Char) : List Char → Bool
  | [] => needle.isEmpty
  | c :: rest => List.isPrefixOf needle (c :: rest) || containsSub needle rest

/-- Scanner of `countSub`; the fuel (initially the haystack length, which
bounds the number of scan steps) keeps the recursion structural. -/
def countSubAux (needle : List Char) : Nat → List Char → Nat
  | 0, _ => 0
  | _ + 1, [] => 0
  | fuel + 1, c :: rest =>
    if List.isPrefixOf needle (c :: rest) then
      1 + countSubAux needle fuel (List.drop (needle.length - 1) rest)
    else countSubAux needle fuel rest

/-- Python `hay.count(needle)`: non-overlapping occurrence count
(for non-empty `needle`). -/
def countSub (needle : List Char) (hay : List Char) : Nat :=
  countSubAux needle hay.length hay

/-- Python whitespace characters stripped by `str.strip()` (ASCII part). -/
def isPyWs (c : Char) : Bool :=
  c = ' ' || c = '\t' || c = '\n' || c = '\r' || c = '\x0b' || c = '\x0c'

/-- Python `s.strip()` on a character list (ASCII whitespace). -/
def pyStripL (l : List Char) : List Char :=
  ((l.dropWhile isPyWs).reverse.dropWhile isPyWs).reverse

/-- Python `s.strip()`. -/
def pyStrip (s : String) : String := ⟨pyStripL s.data⟩

/-- Python `s.startswith(p)`. -/
def pyStartswith (s p : String) : Bool := List.isPrefixOf p.data s.data

/-- Python `s.rstrip('/')` on a character list. -/
def rstripSlashL (l : List Char) : List Char :=
  (l.reverse.dropWhile (· = '/')).reverse

/-- Python `s.endswith('/')`. -/
def endsWithSlash (s : String) : Bool :=
  match s.data.reverse with
  | [] => false
  | c :: _ => c = '/'

/-- Python `s.split('#')[0]` on a character list: everything before the
first `'#'` (the whole list when there is none). -/
def fragStripL (l : List Char) : List Char := l.takeWhile (· ≠ '#')

/-- Python `s.split('#')[0]`. -/
def fragStrip (s : String) : String := ⟨fragStripL s.data⟩

/-- The part strictly after the first occurrence of `sep`, when present. -/
def afterFirst (sep : Char) : List Char → Option (List Char)
  | [] => none
  | c :: rest => if c = sep then some rest else afterFirst sep rest

/-! ## Model of CPython `urllib.parse` -/

/-- Characters allowed in a URL scheme (`urllib.parse.scheme_chars`). -/
def scheme_chars : List Char :=
  "abcdefghijklmnopqrstuvwxyzABCDEFGHIJKLMNOPQRSTUVWXYZ0123456789+-.".data

/-- ASCII letter test (`str.isascii() and str.isalpha()` on one char). -/
def isAsciiAlphaChar (c : Char) : Bool :=
  ('a' ≤ c && c ≤ 'z') || ('A' ≤ c && c ≤ 'Z')

/-- Scheme detection of `urlsplit`: the prefix before the first `':'`
qualifies as a scheme when it is non-empty, starts with an ASCII letter and
consists of scheme characters; the result is the lowercased scheme and the
remainder after the colon.  `pre` accumulates the scanned prefix. -/
def splitSchemeAux (pre : List Char) : List Char → Option (List Char × List Char)
  | [] => none
  | c :: rest =>
    if c = ':' then
      if !pre.isEmpty && isAsciiAlphaChar pre.headI
          && pre.all (fun a => scheme_chars.contains a) then
        some (asciiLowerL pre, rest)
      else none
    else splitSchemeAux (pre ++ [c]) rest

/-- Scheme detection of `urlsplit` on a whole list. -/
def splitScheme (l : List Char) : Option (List Char × List Char) :=
  splitSchemeAux [] l

/-- Delimiters ending the netloc (`urllib.parse._splitnetloc`). -/
def isNetlocDelim (c : Char) : Bool := c = '/' || c = '?' || c = '#'

/-- Result record of `urlsplit` (`SplitResult`). -/
structure UrlSplitResult where
  scheme : String
  netloc : String
  path : String
  query : String
  fragment : String
deriving DecidableEq, Repr

/-- Result record of `urlparse` (`ParseResult`, with `params`). -/
structure UrlParseResult where
  scheme : String
  netloc : String
  path : String
  params : String
  query : String
  fragment : String
deriving DecidableEq, Repr

/-- Model of `urllib.parse.urlsplit(url, default_scheme)`.  `none` models a
raised `ValueError` ("Invalid IPv6 URL": one of `[`, `]` present in the
netloc without the other). -/
def pyUrlsplitL (url : List Char) (default_scheme : String) : Option UrlSplitResult :=
  let sr : List Char × List Char :=
    match splitScheme url with
    | some (s, r) => (s, r)
    | none => (default_scheme.data, url)
  let scheme := sr.1
  let rest0 := sr.2
  let nr : List Char × List Char :=
    if List.isPrefixOf ['/', '/'] rest0 then
      let r2 := rest0.drop 2
      (r2.takeWhile (fun c => !isNetlocDelim c), r2.dropWhile (fun c => !isNetlocDelim c))
    else ([], rest0)
  let netloc := nr.1
  let rest1 := nr.2
  if (netloc.contains '[' && !netloc.contains ']')
      || (netloc.contains ']' && !netloc.contains '[') then
    none
  else
    let beforeFrag := rest1.takeWhile (· ≠ '#')
    let fragment := (afterFirst '#' rest1).getD []
    let path := beforeFrag.takeWhile (· ≠ '?')
    let query := (afterFirst '?' beforeFrag).getD []
    some ⟨⟨scheme⟩, ⟨netloc⟩, ⟨path⟩, ⟨query⟩, ⟨fragment⟩⟩

/-- Schemes using parameters (`urllib.parse.uses_params`). -/
def uses_params : List String :=
  ["", "ftp", "hdl", "prospero", "http", "imap", "https", "shttp", "rtsp",
   "rtspu", "sip", "sips", "mms", "sftp", "tel"]

/-- Model of `urllib.parse._splitparams`: split parameters off the last
path segment at its first `';'`. -/
def splitParamsL (p : List Char) : List Char × List Char :=
  if p.contains '/' then
    let lastSeg := (p.reverse.takeWhile (· ≠ '/')).reverse
    match afterFirst ';' lastSeg with
    | none => (p, [])
    | some prm => (p.take (p.length - prm.length - 1), prm)
  else
    match afterFirst ';' p with
    | some prm => (p.take (p.length - prm.length - 1), prm)
    | none => (p, [])

/-- Model of `urllib.parse.urlparse(url, default_scheme)`. -/
def pyUrlparseL (url : List Char) (default_scheme : String) : Option UrlParseResult :=
  (pyUrlsplitL url default_scheme).map fun s =>
    if uses_params.contains s.scheme && s.path.data.contains ';' then
      let pp := splitParamsL s.path.data
      ⟨s.scheme, s.netloc, ⟨pp.1⟩, ⟨pp.2⟩, s.query, s.fragment⟩
    else ⟨s.scheme, s.netloc, s.path, "", s.query, s.fragment⟩

/-- `urlparse` with the empty default scheme, as the repository calls it. -/
def pyUrlparse (url : String) : Option UrlParseResult := pyUrlparseL url.data ""

/-- Model of `urllib.parse.urlunsplit`. -/
def pyUrlunsplit (scheme netloc path query fragment : String) : String :=
  let url := path
  let url :=
    if netloc ≠ "" || (url ≠ "" && List.isPrefixOf ['/', '/'] url.data) then
      "//" ++ netloc ++
        (if url ≠ "" && !(List.isPrefixOf ['/'] url.data) then "/" ++ url else url)
    else url
  let url := if scheme ≠ "" then scheme ++ ":" ++ url else url
  let url := if query ≠ "" then url ++ "?" ++ query else url
  if fragment ≠ "" then url ++ "#" ++ fragment else url

/-- Model of `urllib.parse.urlunparse`. -/
def pyUrlunparse (scheme netloc path params query fragment : String) : String :=
  let p := if params ≠ "" then path ++ ";" ++ params else path
  pyUrlunsplit scheme netloc p query fragment

/-- Schemes treating relative references (`urllib.parse.uses_relative`). -/
def uses_relative : List String :=
  ["", "ftp", "http", "gopher", "nntp", "imap", "wais", "file", "https",
   "shttp", "mms", "prospero", "rtsp", "rtspu", "sftp", "svn", "svn+ssh",
   "ws", "wss"]

/-- Schemes using a network location (`urllib.parse.uses_netloc`). -/
def uses_netloc : List String :=
  ["", "ftp", "http", "gopher", "nntp", "telnet", "imap", "wais", "file",
   "mms", "https", "shttp", "snews", "prospero", "rtsp", "rtspu", "rsync",
   "svn", "svn+ssh", "sftp", "nfs", "git", "git+ssh", "ws", "wss"]

/-- Python `s.split('/')` (always at least one segment). -/
def splitOnSlash : List Char → List (List Char)
  | [] => [[]]
  | c :: rest =>
    if c = '/' then [] :: splitOnSlash rest
    else
      match splitOnSlash rest with
      | [] => [[c]]
      | s :: ss => (c :: s) :: ss

/-- `segments[1:-1] = filter(None, segments[1:-1])` of `urljoin`: drop empty
segments strictly between the first and the last. -/
def filterMiddle (segs : List String) : List String :=
  match segs, segs.getLast? with
  | h :: t1 :: t, some last =>
    h :: (((t1 :: t).dropLast).filter (fun s => s ≠ "")) ++ [last]
  | _, _ => segs

/-- The `..` / `.` resolution loop of `urljoin`. -/
def resolveSegments (segs : List String) : List String :=
  segs.foldl
    (fun acc seg =>
      if seg = ".." then acc.dropLast
      else if seg = "." then acc
      else acc ++ [seg])
    []

/-- Model of `urllib.parse.urljoin(base, url)`.  `none` models a
`ValueError` raised by the inner `urlparse` calls. -/
def pyUrljoin (base url : String) : Option String :=
  if base = "" then some url
  else if url = "" then some base
  else
    match pyUrlparseL base.data "" with
    | none => none
    | some b =>
      match pyUrlparseL url.data b.scheme with
      | none => none
      | some r =>
        if r.scheme ≠ b.scheme || !uses_relative.contains r.scheme then some url
        else if uses_netloc.contains r.scheme && r.netloc ≠ "" then
          some (pyUrlunparse r.scheme r.netloc r.path r.params r.query r.fragment)
        else
          let netloc := if uses_netloc.contains r.scheme then b.netloc else r.netloc
          if r.path = "" && r.params = "" then
            let query := if r.query = "" then b.query else r.query
            some (pyUrlunparse r.scheme netloc b.path b.params query r.fragment)
          else
            let baseParts0 := (splitOnSlash b.path.data).map (fun l => (⟨l⟩ : String))
            let baseParts :=
              if baseParts0.getLast? ≠ some "" then baseParts0.dropLast else baseParts0
            let pathSegs := (splitOnSlash r.path.data).map (fun l => (⟨l⟩ : String))
            let segments :=
              if List.isPrefixOf ['/'] r.path.data then pathSegs
              else filterMiddle (baseParts ++ pathSegs)
            let resolved := resolveSegments segments
            let resolved :=
              if segments.getLast? = some "." || segments.getLast? = some ".." then
                resolved ++ [""]
              else resolved
            let p := String.intercalate "/" resolved
            let p := if p = "" then "/" else p
            some (pyUrlunparse r.scheme netloc p r.params r.query r.fragment)

/-! ## The repository's URL helpers (`LinkExtractor`) -/

/-- Model of `LinkExtractor.__init__`'s base-URL normalization:
`base_url.rstrip('/')`. -/
def initBaseUrl (s : String) : String := ⟨rstripSlashL s.data⟩

/-- Model of `LinkExtractor._is_valid_url` (lines 473-526).  A `ValueError`
from `urlparse` is caught by the surrounding `except` and yields `False`. -/
def is_valid_url (url : String) : Bool :=
  match pyUrlparse url with
  | none => false
  | some parsed =>
    if parsed.scheme = "" || parsed.netloc = "" then false
    else if !(parsed.scheme = "http" || parsed.scheme = "https") then false
    else if (containsSub "%22%3E".data url.data || containsSub "%3C".data url.data
              || containsSub "%3E".data url.data)
            && (containsSub "%22%3E".data url.data || containsSub "%3C/a".data url.data
              || containsSub "href%3D".data (asciiLowerL url.data)) then false
    else if countSub "http://".data url.data > 1
            || countSub "https://".data url.data > 1 then false
    else if url.length > 2000 then false
    else if parsed.netloc.data.any (fun c => c = '<' || c = '>' || c = '"' || c = '\'') then
      false
    else true

/-- Model of `LinkExtractor._clean_url` (lines 528-552): strip the fragment,
strip trailing slashes unless the parsed path is exactly `/`, then validate.
A `ValueError` from the `urlparse` call inside the trailing-slash test
escapes to the `except` and yields `None`. -/
def clean_url (url : String) : Option String :=
  let u1 := fragStrip url
  if endsWithSlash u1 then
    match pyUrlparse u1 with
    | none => none
    | some p =>
      let u2 := if p.path ≠ "/" then (⟨rstripSlashL u1.data⟩ : String) else u1
      if is_valid_url u2 then some u2 else none
  else
    if is_valid_url u1 then some u1 else none

/-- Model of `LinkExtractor._is_same_domain` (lines 554-561): netloc equality
against the stored base URL; any parse failure yields `False`. -/
def is_same_domain (base_url url : String) : Bool :=
  match pyUrlparse base_url, pyUrlparse url with
  | some b, some u => b.netloc = u.netloc
  | _, _ => false

/-- Characters allowed inside a scanned script URL: the regex
`https?://[^\s"'<>]+` of `_extract_links_from_scripts` (ASCII whitespace;
unicode whitespace elided). -/
def urlCharOk (c : Char) : Bool :=
  !(isPyWs c || c = '"' || c = '\'' || c = '<' || c = '>')

/-- One attempted regex match of `https?://[^\s"'<>]+` at the head of the
list: the matched text and the remainder. -/
def tryUrlMatch (l : List Char) : Option (List Char × List Char) :=
  let tryPre (pre : List Char) : Option (List Char × List Char) :=
    if List.isPrefixOf pre l then
      let after := l.drop pre.length
      let body := after.takeWhile urlCharOk
      if body.isEmpty then none
      else some (pre ++ body, after.dropWhile urlCharOk)
    else none
  match tryPre "https://".data with
  | some r => some r
  | none => tryPre "http://".data

/-- Left-to-right non-overlapping scan of `re.findall` for the pattern
`https?://[^\s"'<>]+`. -/
def findUrlsAux : Nat → List Char → List (List Char)
  | 0, _ => []
  | _ + 1, [] => []
  | fuel + 1, c :: rest =>
    match tryUrlMatch (c :: rest) with
    | some (m, after) => m :: findUrlsAux fuel after
    | none => findUrlsAux fuel rest

/-- Model of `re.findall(r'https?://[^\s"\'<>]+', text)`. -/
def findUrls (s : String) : List String :=
  (findUrlsAux (s.data.length + 1) s.data).map (fun l => ⟨l⟩)

/-! ## Model of `json.loads` (for the JSON-LD strategy) -/

/-- A parsed Python JSON value.  Numbers keep their lexeme: the JSON-LD
strategy never looks at numeric values, only at strings. -/
inductive PyJson where
  | jnull
  | jbool (b : Bool)
  | jnum (lexeme : String)
  | jstr (s : String)
  | jarr (items : List PyJson)
  | jobj (entries : List (String × PyJson))

/-- JSON whitespace (`json.decoder`: space, tab, newline, return). -/
def jsonWs (c : Char) : Bool := c = ' ' || c = '\t' || c = '\n' || c = '\r'

/-- Skip JSON whitespace. -/
def skipWs (l : List Char) : List Char := l.dropWhile jsonWs

/-- Value of one hexadecimal digit, by code point (digits, then the
lowercase and the uppercase letter ranges). -/
def hexDigitVal (c : Char) : Option Nat :=
  let n := c.toNat
  if 48 ≤ n ∧ n ≤ 57 then some (n - 48)
  else if 97 ≤ n ∧ n ≤ 102 then some (n - 87)
  else if 65 ≤ n ∧ n ≤ 70 then some (n - 55)
  else none

/-- Four hex digits of a `\uXXXX` escape, folded into one code unit. -/
def parseHex4 (l : List Char) : Option (Nat × List Char) :=
  match l with
  | a :: b :: c :: d :: rest =>
    match hexDigitVal a, hexDigitVal b, hexDigitVal c, hexDigitVal d with
    | some x, some y, some z, some w =>
      some (((x * 16 + y) * 16 + z) * 16 + w, rest)
    | _, _, _, _ => none
  | _ => none

/-- JSON string body after the opening quote.  Python's strict decoder
rejects raw control characters; surrogate pairs are combined, a lone
surrogate (representable in a Python `str`, not in a Lean `Char`) is
modelled as U+FFFD. -/
def parseJStringAux : Nat → List Char → Option (List Char × List Char)
  | 0, _ => none
  | _ + 1, [] => none
  | fuel + 1, c :: rest =>
    if c = '"' then some ([], rest)
    else if c = '\\' then
      match rest with
      | [] => none
      | e :: rest2 =>
        if e = 'u' then
          match parseHex4 rest2 with
          | none => none
          | some (n, rest3) =>
            if 55296 ≤ n && n < 56320 then
              match rest3 with
              | '\\' :: 'u' :: rest4 =>
                match parseHex4 rest4 with
                | some (m, rest5) =>
                  if 56320 ≤ m && m < 57344 then
                    let cp := (n - 55296) * 1024 + (m - 56320) + 65536
                    (parseJStringAux fuel rest5).map (fun pr => (Char.ofNat cp :: pr.1, pr.2))
                  else
                    (parseJStringAux fuel rest3).map (fun pr => ('�' :: pr.1, pr.2))
                | none =>
                  (parseJStringAux fuel rest3).map (fun pr => ('�' :: pr.1, pr.2))
              | _ =>
                (parseJStringAux fuel rest3).map (fun pr => ('�' :: pr.1, pr.2))
            else if 56320 ≤ n && n < 57344 then
              (parseJStringAux fuel rest3).map (fun pr => ('�' :: pr.1, pr.2))
            else
              (parseJStringAux fuel rest3).map (fun pr => (Char.ofNat n :: pr.1, pr.2))
        else
          let esc : Option Char :=
            if e = '"' then some '"'
            else if e = '\\' then some '\\'
            else if e = '/' then some '/'
            else if e = 'b' then some '\x08'
            else if e = 'f' then some '\x0c'
            else if e = 'n' then some '\n'
            else if e = 'r' then some '\r'
            else if e = 't' then some '\t'
            else none
          match esc with
          | none => none
          | some ch => (parseJStringAux fuel rest2).map (fun pr => (ch :: pr.1, pr.2))
    else if c.toNat < 32 then none
    else (parseJStringAux fuel rest).map (fun pr => (c :: pr.1, pr.2))

/-- A digit run. -/
def takeDigits (l : List Char) : List Char × List Char :=
  (l.takeWhile Char.isDigit, l.dropWhile Char.isDigit)

/-- JSON number lexeme (RFC 8259 grammar): `-? int frac? exp?` with no
leading zeros in `int`. -/
def parseJNumber (l : List Char) : Option (List Char × List Char) :=
  let signAndRest : List Char × List Char :=
    match l with
    | '-' :: r => (['-'], r)
    | _ => ([], l)
  let sign := signAndRest.1
  let r0 := signAndRest.2
  match takeDigits r0 with
  | ([], _) => none
  | (ds, r1) =>
    if ds.length > 1 && ds.headI = '0' then none
    else
      let intPart := sign ++ ds
      let fracAndRest : List Char × List Char :=
        match r1 with
        | '.' :: r2 =>
          match takeDigits r2 with
          | ([], _) => ([], r1)
          | (fs, r3) => ('.' :: fs, r3)
        | _ => ([], r1)
      let frac := fracAndRest.1
      let r4 := fracAndRest.2
      if frac = [] && (match r1 with | '.' :: _ => true | _ => false) then none
      else
        let expAndRest : Option (List Char × List Char) :=
          match r4 with
          | e :: r5 =>
            if e = 'e' || e = 'E' then
              let se : List Char × List Char :=
                match r5 with
                | s :: r6 => if s = '+' || s = '-' then ([s], r6) else ([], r5)
                | [] => ([], r5)
              match takeDigits se.2 with
              | ([], _) => none
              | (es, r7) => some (e :: se.1 ++ es, r7)
            else some ([], r4)
          | [] => some ([], r4)
        match expAndRest with
        | none => none
        | some (ex, r8) => some (intPart ++ frac ++ ex, r8)

/-- Insert a key into a JSON object under Python `dict` semantics: a
duplicate key keeps its first position but takes the last value. -/
def objInsert (k : String) (v : PyJson) (es : List (String × PyJson)) :
    List (String × PyJson) :=
  if es.any (fun e => e.1 = k) then
    es.map (fun e => if e.1 = k then (k, v) else e)
  else es ++ [(k, v)]

mutual

/-- One JSON value (Python `json` grammar, including the non-strict
`NaN` / `Infinity` / `-Infinity` constants Python accepts by default). -/
def parseJValue : Nat → List Char → Option (PyJson × List Char)
  | 0, _ => none
  | fuel + 1, l =>
    match l with
    | [] => none
    | c :: rest =>
      if c = '{' then
        let r := skipWs rest
        match r with
        | '}' :: r2 => some (.jobj [], r2)
        | _ => parseJObjEntries fuel [] r
      else if c = '[' then
        let r := skipWs rest
        match r with
        | ']' :: r2 => some (.jarr [], r2)
        | _ => (parseJArrItems fuel [] r).map (fun pr => (PyJson.jarr pr.1, pr.2))
      else if c = '"' then
        (parseJStringAux (fuel + 1) rest).map (fun pr => (PyJson.jstr ⟨pr.1⟩, pr.2))
      else if List.isPrefixOf "true".data l then some (.jbool true, l.drop 4)
      else if List.isPrefixOf "false".data l then some (.jbool false, l.drop 5)
      else if List.isPrefixOf "null".data l then some (.jnull, l.drop 4)
      else if List.isPrefixOf "NaN".data l then some (.jnum "NaN", l.drop 3)
      else if List.isPrefixOf "Infinity".data l then some (.jnum "Infinity", l.drop 8)
      else if List.isPrefixOf "-Infinity".data l then some (.jnum "-Infinity", l.drop 9)
      else
        (parseJNumber l).map (fun pr => (PyJson.jnum ⟨pr.1⟩, pr.2))
termination_by structural fuel _ => fuel

/-- Object entries after `{` (first entry pending, accumulated in `acc`). -/
def parseJObjEntries :
    Nat → List (String × PyJson) → List Char → Option (PyJson × List Char)
  | 0, _, _ => none
  | fuel + 1, acc, l =>
    match l with
    | '"' :: rest =>
      match parseJStringAux (fuel + 1) rest with
      | none => none
      | some (key, r1) =>
        match skipWs r1 with
        | ':' :: r2 =>
          match parseJValue fuel (skipWs r2) with
          | none => none
          | some (v, r3) =>
            let acc2 := objInsert ⟨key⟩ v acc
            match skipWs r3 with
            | '}' :: r4 => some (.jobj acc2, r4)
            | ',' :: r4 => parseJObjEntries fuel acc2 (skipWs r4)
            | _ => none
        | _ => none
    | _ => none
termination_by structural fuel _ _ => fuel

/-- Array items after `[` (first item pending, accumulated in `acc`). -/
def parseJArrItems :
    Nat → List PyJson → List Char → Option (List PyJson × List Char)
  | 0, _, _ => none
  | fuel + 1, acc, l =>
    match parseJValue fuel l with
    | none => none
    | some (v, r1) =>
      match skipWs r1 with
      | ']' :: r2 => some (acc ++ [v], r2)
      | ',' :: r2 => parseJArrItems fuel (acc ++ [v]) (skipWs r2)
      | _ => none
termination_by structural fuel _ _ => fuel

end

/-- Model of `json.loads`: parse one document with surrounding whitespace,
requiring the whole input to be consumed.  `none` models a raised
`JSONDecodeError`. -/
def json_loads (s : String) : Option PyJson :=
  match parseJValue (2 * s.data.length + 4) (skipWs s.data) with
  | some (v, rest) => if skipWs rest = [] then some v else none
  | none => none

/-! ## The parsed document and the extraction pipeline -/

/-- One element of the parsed document (the BeautifulSoup node data the
extractor reads): tag name, attributes, and — for `script` elements — the
text content `script.string` (`none` when the element has no single string
child; Python treats `None` and `""` alike as falsy). -/
structure Element where
  tag : String
  attrs : List (String × String)
  scriptText : Option String
deriving DecidableEq, Repr

/-- A parsed document in document order (`soup.find_all` traversal). -/
abbrev Soup := List Element

/-- Attribute lookup, `element.get(name)`. -/
def attrGet (e : Element) (name : String) : Option String :=
  (e.attrs.find? (fun p => p.1 = name)).map (fun p => p.2)

/-- `find_all(..., href=True)` presence test. -/
def hasAttr (e : Element) (name : String) : Bool :=
  (attrGet e name).isSome

/-- The diagnostics mapping: every key the extractor ever writes, each
optional (`none` = key absent from the dict). -/
structure Diag where
  status_code : Option Nat := none
  content_length : Option Nat := none
  content_type : Option String := none
  final_url : Option String := none
  redirected : Option Bool := none
  anchor_tags_found : Option Nat := none
  unique_links_found : Option Nat := none
  success : Option Bool := none
  error : Option String := none
deriving DecidableEq, Repr

/-- The outcome of the underlying `requests.Session.get` call, supplied to
the model as the fetch is an external effect: either an HTTP response
(status, final post-redirect URL, content length, `Content-Type` header,
and the document the content parses to — `none` when no parser succeeds),
or one of the classified transport failures. -/
inductive FetchSim where
  | ok (status : Nat) (finalUrl : String) (contentLength : Nat)
      (contentType : Option String) (doc : Option Soup)
  | timeout
  | connectionError
  | tooManyRedirects
  | requestFailed (msg : String)
  | unexpected (msg : String)
deriving DecidableEq, Repr

/-- Model of `LinkExtractor.fetch_page` (lines 42-98): returns the response
(final URL and parsed document) or an error message, together with the
diagnostics snapshot it stores.  `raise_for_status` on an unclassified
non-2xx/3xx status raises `HTTPError`, caught as a `RequestException`; its
message is modelled opaquely.  On transport failures no response exists and
the diagnostics snapshot is not written (it stays empty for a fresh call). -/
def fetch_page (timeout : Nat) (url : String) (sim : FetchSim) :
    Option (String × Option Soup) × Option String × Diag :=
  match sim with
  | .ok status finalUrl clen ctype doc =>
    let d : Diag :=
      { status_code := some status
        content_length := some clen
        content_type := some (ctype.getD "unknown")
        final_url := some finalUrl
        redirected := some (finalUrl ≠ url) }
    if status = 403 then
      (none, some "Access forbidden (403). The website may be blocking automated requests.", d)
    else if status = 401 then
      (none, some "Unauthorized (401). The website may require authentication.", d)
    else if status = 404 then
      (none, some "Page not found (404).", d)
    else if 400 ≤ status then
      (none, some ("Request failed: HTTP error " ++ toString status), d)
    else
      (some (finalUrl, doc), none, d)
  | .timeout =>
    (none, some ("Request timed out after " ++ toString timeout ++ " seconds."), {})
  | .connectionError =>
    (none, some "Connection error. Check your internet connection or the URL.", {})
  | .tooManyRedirects =>
    (none, some "Too many redirects. The URL may be redirecting in a loop.", {})
  | .requestFailed m => (none, some ("Request failed: " ++ m), {})
  | .unexpected m => (none, some ("Unexpected error: " ++ m), {})

/-- The skip test of the anchor loop (lines 143-146): empty, `javascript:`,
`mailto:`, `tel:`, fragment-only, or `data:` href values. -/
def skipHref (href : String) : Bool :=
  href = "" || pyStartswith href "javascript:" || pyStartswith href "mailto:"
    || pyStartswith href "tel:" || pyStartswith href "#" || pyStartswith href "data:"

/-- The links one anchor element contributes (the loop body of lines
140-165): strip, skip, join against the response URL, clean, then apply the
domain filter — note the filter acts only when `filter_domain` is set and
`include_external` is not. -/
def anchorContrib (base_url finalUrl : String) (filter_domain include_external : Bool)
    (e : Element) : Finset String :=
  if e.tag = "a" && hasAttr e "href" then
    let href := pyStrip ((attrGet e "href").getD "")
    if skipHref href then ∅
    else
      match pyUrljoin finalUrl href with
      | none => ∅
      | some absolute_url =>
        match clean_url absolute_url with
        | none => ∅
        | some cleaned_url =>
          if filter_domain && !include_external then
            if is_same_domain base_url cleaned_url then {cleaned_url} else ∅
          else {cleaned_url}
  else ∅

/-- The links the URL scan of one script element's text contributes
(lines 222-233): every regex match, cleaned. -/
def scriptContrib (e : Element) : Finset String :=
  if e.tag = "script" then
    match e.scriptText with
    | none => ∅
    | some s =>
      if s ≠ "" then
        (findUrls s).foldr
          (fun u acc =>
            match clean_url u with
            | some cu => insert cu acc
            | none => acc) ∅
      else ∅
  else ∅

/-- The links one `data-href` attribute contributes (lines 236-245): only
empty and `javascript:` values are skipped. -/
def dataHrefContrib (base : String) (e : Element) : Finset String :=
  match attrGet e "data-href" with
  | none => ∅
  | some h =>
    let href := pyStrip h
    if href ≠ "" && !pyStartswith href "javascript:" then
      match pyUrljoin base href with
      | none => ∅
      | some absolute_url =>
        match clean_url absolute_url with
        | some cu => {cu}
        | none => ∅
    else ∅

/-- Model of `LinkExtractor._extract_links_from_scripts` (lines 217-247). -/
def extract_links_from_scripts (soup : Soup) (base_url : String) : Finset String :=
  (soup.foldr (fun e acc => scriptContrib e ∪ acc) ∅)
    ∪ (soup.foldr (fun e acc => dataHrefContrib base_url e ∪ acc) ∅)

/-- The links one `link` / `area` element contributes (lines 173-182):
only empty and `javascript:` values are skipped. -/
def linkAreaContrib (finalUrl : String) (e : Element) : Finset String :=
  if (e.tag = "link" || e.tag = "area") && hasAttr e "href" then
    let href := pyStrip ((attrGet e "href").getD "")
    if href ≠ "" && !pyStartswith href "javascript:" then
      match pyUrljoin finalUrl href with
      | none => ∅
      | some absolute_url =>
        match clean_url absolute_url with
        | some cu => {cu}
        | none => ∅
    else ∅
  else ∅

/-- The links one `routerlink` attribute contributes (lines 185-194):
only empty values are skipped. -/
def routerContrib (finalUrl : String) (e : Element) : Finset String :=
  match attrGet e "routerlink" with
  | none => ∅
  | some h =>
    let href := pyStrip h
    if href ≠ "" then
      match pyUrljoin finalUrl href with
      | none => ∅
      | some absolute_url =>
        match clean_url absolute_url with
        | some cu => {cu}
        | none => ∅
    else ∅

/-- The link one item of a JSON-LD array contributes (lines 206-208):
strings beginning with `http`, fragment-stripped; no validation. -/
def jsonItemLinks : PyJson → Finset String
  | .jstr v => if pyStartswith v "http" then {fragStrip v} else ∅
  | _ => ∅

/-- The links one value of a JSON-LD object contributes (lines 202-208):
`http`-prefixed strings, fragment-stripped, and for list values the same
rule applied to each element; no validation. -/
def jsonValLinks : PyJson → Finset String
  | .jstr v => if pyStartswith v "http" then {fragStrip v} else ∅
  | .jarr items => items.foldr (fun it acc => jsonItemLinks it ∪ acc) ∅
  | _ => ∅

/-- The links one JSON-LD script block contributes (lines 197-210): parse
its text as JSON; a parse failure — or a non-object document — contributes
nothing (the bare `except: pass`). -/
def jsonLdContrib (e : Element) : Finset String :=
  if e.tag = "script" && (attrGet e "type" = some "application/ld+json") then
    match e.scriptText with
    | none => ∅
    | some s =>
      if s ≠ "" then
        match json_loads s with
        | some (.jobj entries) =>
          entries.foldr (fun kv acc => jsonValLinks kv.2 ∪ acc) ∅
        | _ => ∅
      else ∅
  else ∅

/-- Union of a per-element contribution over the document. -/
def soupUnion (f : Element → Finset String) (soup : Soup) : Finset String :=
  soup.foldr (fun e acc => f e ∪ acc) ∅

/-- `len(soup.find_all('a', href=True))`, the `anchor_tags_found` count. -/
def countAnchors (soup : Soup) : Nat :=
  (soup.filter (fun e => e.tag = "a" && hasAttr e "href")).length

/-- Model of `LinkExtractor.extract_links` (lines 100-215).  `base_url` is
the constructor-stored base (already `rstrip('/')`-ed), `urlArg` the
optional explicit URL, `sim` the outcome of the HTTP GET.  Returns the set
of links and the diagnostics dictionary. -/
def extract_links (base_url : String) (urlArg : Option String) (timeout : Nat)
    (sim : FetchSim) (filter_domain include_external : Bool) :
    Finset String × Diag :=
  let target_url := match urlArg with | none => base_url | some u => if u = "" then base_url else u
  match fetch_page timeout target_url sim with
  | (none, err, d) => (∅, { d with error := err })
  | (some (finalUrl, doc), _, d) =>
    match doc with
    | none => (∅, { d with error := some "Failed to parse HTML with any parser" })
    | some soup =>
      let d := { d with anchor_tags_found := some (countAnchors soup) }
      let links :=
        soupUnion (anchorContrib base_url finalUrl filter_domain include_external) soup
          ∪ extract_links_from_scripts soup finalUrl
          ∪ soupUnion (linkAreaContrib finalUrl) soup
          ∪ soupUnion (routerContrib finalUrl) soup
          ∪ soupUnion jsonLdContrib soup
      (links, { d with unique_links_found := some links.card, success := some true })

/-! ## Predicates and concrete inputs used by the claims -/

/-- The CanonicalLink invariant asserted by the spec for validated links:
scheme exactly `http`/`https`, non-empty host free of `<`, `>`, `"`, `'`,
no fragment, at most 2000 characters, and neither `http://` nor `https://`
occurring twice. -/
def canonicalInv (l : String) : Prop :=
  (∃ p, pyUrlparse l = some p ∧ (p.scheme = "http" ∨ p.scheme = "https") ∧
    p.netloc ≠ "" ∧
    ∀ c ∈ p.netloc.data, c ≠ '<' ∧ c ≠ '>' ∧ c ≠ '"' ∧ c ≠ '\'') ∧
  '#' ∉ l.data ∧ l.length ≤ 2000 ∧
  countSub "http://".data l.data ≤ 1 ∧ countSub "https://".data l.data ≤ 1

/-- The detected scheme of the list, if any, is neither `http` nor
`https` (so URL validation must fail). -/
def nonHttpScheme (l : List Char) : Prop :=
  ∀ pr : List Char × List Char, splitScheme l = some pr →
    (⟨pr.1⟩ : String) ≠ "http" ∧ (⟨pr.1⟩ : String) ≠ "https"

/-- Page with one external URL inside a script, one same-domain anchor and
one external anchor (for the domain-filter claim). -/
def c1soup : Soup :=
  [⟨"script", [], some "var u=\"https://other.com/x\";"⟩,
   ⟨"a", [("href", "/about")], none⟩,
   ⟨"a", [("href", "https://ext.com/y")], none⟩]

/-- Page with a JSON-LD block whose string value is not a well-formed URL,
and a script containing a URL that embeds a second URL in its query (for
the CanonicalLink-invariant claim). -/
def c2soup : Soup :=
  [⟨"script", [("type", "application/ld+json")], some "\x7b\"u\":\"httpx\"\x7d"⟩,
   ⟨"script", [], some "x=\"https://e.com/?u=http://x.com\";"⟩]

/-- Page with a single `area` element whose href is fragment-only (for the
skip-rules claim). -/
def c4soup : Soup :=
  [⟨"area", [("href", "#sec")], none⟩]

/-- A well-formed anchor element (for the JSON-LD isolation claim). -/
def anchorAbout : Element := ⟨"a", [("href", "/about")], none⟩

/-- A malformed JSON-LD block. -/
def badLdBlock : Element :=
  ⟨"script", [("type", "application/ld+json")], some "\x7b not json"⟩

/-- A well-formed JSON-LD block carrying one URL. -/
def goodLdBlock : Element :=
  ⟨"script", [("type", "application/ld+json")], some "\x7b\"url\":\"https://g.com/x\"\x7d"⟩

/-- An over-length URL whose excess lies entirely in its fragment. -/
def longFragUrl : String := ⟨"https://e.com/p#".data ++ List.replicate 2000 'a'⟩

/-! ## Claim theorems -/

/-- C6: an extraction whose fetch returns HTTP 403 yields an empty LinkSet
together with diagnostics whose `error` value mentions "forbidden" and whose
`status_code` is 403.  The failure is a returned value — the model of
`extract_links` is a total function, so nothing is raised to the caller. -/
theorem C6_forbidden_soft_failure (base : String) (urlArg : Option String)
    (timeout clen : Nat) (finalUrl : String) (ctype : Option String)
    (doc : Option Soup) (fd ie : Bool) :
    (extract_links base urlArg timeout (.ok 403 finalUrl clen ctype doc) fd ie).1 = ∅ ∧
    (extract_links base urlArg timeout (.ok 403 finalUrl clen ctype doc) fd ie).2.error
      = some "Access forbidden (403). The website may be blocking automated requests." ∧
    containsSub "forbidden".data
      "Access forbidden (403). The website may be blocking automated requests.".data = true ∧
    (extract_links base urlArg timeout (.ok 403 finalUrl clen ctype doc) fd ie).2.status_code
      = some 403 := by
  refine ⟨?_, ?_, by decide, ?_⟩ <;> simp [extract_links, fetch_page]

/-- C3: evaluation of the injection-pattern rejection.  A URL containing
only `href%3D` is accepted (the claim says rejected): the code's check
`'href%3D' in url.lower()` compares a pattern containing an uppercase `D`
against the lowercased URL and so can never match, and it sits behind an
outer guard requiring `%3C`, `%3E` or `%22%3E`.  `%22%3E` and `%3C/a` are
rejected, and ordinary `%20` is accepted, as the claim states. -/
theorem C3_injection_patterns_eval :
    clean_url "https://e.com/?href%3Dlogin" = some "https://e.com/?href%3Dlogin" ∧
    clean_url "https://e.com/a%22%3Eb" = none ∧
    clean_url "https://e.com/a%3C/a" = none ∧
    clean_url "http://e.com/a%20b" = some "http://e.com/a%20b" := by decide

/-- C5 counterexample: at the root path the trailing slash is preserved,
`normalize("https://e.com/") = "https://e.com/"`, not `"https://e.com"` as
the claim's quoted equation states. -/
theorem C5_root_counterexample :
    clean_url "https://e.com/" = some "https://e.com/" ∧
    clean_url "https://e.com/" ≠ some "https://e.com" := by decide

/-- C5 (amended): trailing slashes are stripped exactly when the
fragment-stripped URL ends in `/` and its parsed path is not `/`;
at the root path nothing is stripped, so `normalize("https://e.com/p/") =
"https://e.com/p"` but `normalize("https://e.com/") = "https://e.com/"`. -/
theorem C5_trailing_slash_boundary :
    clean_url "https://e.com/p/" = some "https://e.com/p" ∧
    clean_url "https://e.com/" = some "https://e.com/" ∧
    ∀ (u : String) (p : UrlParseResult),
      pyUrlparse (fragStrip u) = some p → p.path = "/" →
      clean_url u = none ∨ clean_url u = some (fragStrip u) := by
  refine ⟨by decide, by decide, ?_⟩
  intro u p hp hpath
  unfold clean_url
  by_cases he : endsWithSlash (fragStrip u)
  · simp only [he, if_true, hp, hpath]
    by_cases hv : is_valid_url (fragStrip u)
    · right
      simp [hv]
    · left
      simp [hv]
  · simp only [he, if_false, Bool.false_eq_true]
    by_cases hv : is_valid_url (fragStrip u)
    · right
      simp [hv]
    · left
      simp [hv]

/-- C5 witness: the amended boundary rule applied at `https://w.com/`. -/
theorem C5_boundary_witness :
    clean_url "https://w.com/" = none ∨
    clean_url "https://w.com/" = some (fragStrip "https://w.com/") :=
  C5_trailing_slash_boundary.2.2 "https://w.com/" ⟨"https", "w.com", "/", "", "", ""⟩
    (by decide) rfl

/-- C1: evaluation at the failing input.  With `filter_domain=True` and
`include_external=False` the external anchor is filtered out, but the
external URL discovered by the inline-script strategy survives even though
it is not same-origin (the filter is applied only in the anchor loop);
with any other flag combination every validated link survives. -/
theorem C1_filter_bypassed_by_script_strategy :
    (extract_links "https://a.com" none 10
        (.ok 200 "https://a.com" 0 none (some c1soup)) true false).1
      = {"https://a.com/about", "https://other.com/x"} ∧
    is_same_domain "https://a.com" "https://other.com/x" = false ∧
    (extract_links "https://a.com" none 10
        (.ok 200 "https://a.com" 0 none (some c1soup)) true true).1
      = {"https://a.com/about", "https://ext.com/y", "https://other.com/x"} := by
  decide

/-- C4 counterexample: an `area` element with the fragment-only href
`#sec` produces a link (the page's own URL) — the `link`/`area` loop skips
only empty and `javascript:` values, not the other four prefixes. -/
theorem C4_area_fragment_href_yields_link :
    (extract_links "https://a.com" none 10
        (.ok 200 "https://a.com/p" 0 none (some c4soup)) false true).1
      = {"https://a.com/p"} := by decide

/-- C2 counterexample: the JSON-LD strategy adds `httpx`, which has neither
an `http`/`https` scheme nor a host (it bypasses `_is_valid_url`); and the
script-scan strategy adds a validated link containing both one `http://`
and one `https://` occurrence, so the two "together" occur twice. -/
theorem C2_invariant_violations :
    (extract_links "https://a.com" none 10
        (.ok 200 "https://a.com" 0 none (some c2soup)) false true).1
      = {"httpx", "https://e.com/?u=http://x.com"} ∧
    pyUrlparse "httpx" = some ⟨"", "", "httpx", "", "", ""⟩ ∧
    countSub "http://".data "https://e.com/?u=http://x.com".data = 1 ∧
    countSub "https://".data "https://e.com/?u=http://x.com".data = 1 := by decide

/-- C9 counterexample: an input of 2016 characters — over the 2000 ceiling —
is accepted because its excess lies in the fragment, which is stripped
before the length check. -/
theorem C9_overlength_fragment_accepted :
    longFragUrl.length > 2000 ∧ clean_url longFragUrl = some "https://e.com/p" := by
  have hdata : longFragUrl.data = "https://e.com/p#".data ++ List.replicate 2000 'a' := rfl
  have hfrag : fragStrip longFragUrl = "https://e.com/p" := by
    apply String.ext
    show fragStripL longFragUrl.data = _
    rw [hdata]
    unfold fragStripL
    rw [List.takeWhile_append]
    decide
  constructor
  · show 2000 < longFragUrl.length
    have hlen : longFragUrl.length = ("https://e.com/p#".data ++ List.replicate 2000 'a').length := by
      rw [← hdata]
      rfl
    rw [hlen, List.length_append, List.length_replicate]
    have h16 : "https://e.com/p#".data.length = 16 := rfl
    omega
  · show clean_url longFragUrl = some "https://e.com/p"
    unfold clean_url
    rw [hfrag]
    decide

/-! ## Structural lemmas about the string utilities -/

/-- `takeWhile` over an append whose left part wholly satisfies the
predicate. -/
theorem takeWhile_append_of_all {q : Char → Bool} :
    ∀ {P : List Char}, (∀ c ∈ P, q c = true) →
    ∀ t, List.takeWhile q (P ++ t) = P ++ List.takeWhile q t := by
  intro P
  induction P with
  | nil => intro _ t; rfl
  | cons a P ih =>
    intro h t
    have ha : q a = true := h a (List.mem_cons_self a P)
    simp only [List.cons_append, List.takeWhile_cons, ha, if_true]
    rw [ih (fun c hc => h c (List.mem_cons_of_mem a hc)) t]

/-- A list is a Boolean prefix of itself followed by anything. -/
theorem isPrefixOf_self_append (p t : List Char) :
    List.isPrefixOf p (p ++ t) = true := by
  induction p with
  | nil => simp [List.isPrefixOf]
  | cons a p ih =>
    show (a == a && List.isPrefixOf p (p ++ t)) = true
    simp [ih]

/-- A Boolean prefix decomposes the list into itself and the rest. -/
theorem eq_append_drop_of_isPrefixOf {p l : List Char}
    (h : List.isPrefixOf p l = true) : p ++ List.drop p.length l = l := by
  induction p generalizing l with
  | nil => simp
  | cons a p ih =>
    cases l with
    | nil => exact absurd h (by simp [List.isPrefixOf])
    | cons b l =>
      rw [show List.isPrefixOf (a :: p) (b :: l)
          = (a == b && List.isPrefixOf p l) from rfl] at h
      obtain ⟨hab, hrest⟩ := Bool.and_eq_true_iff.mp h
      have hab' : a = b := by simpa using hab
      show a :: (p ++ List.drop p.length l) = b :: l
      rw [hab', ih hrest]

/-- `dropWhile` over `a ++ c :: b` when `c` stops the scan. -/
theorem dropWhile_append_stop {p : Char → Bool} {c : Char} (hc : p c = false) :
    ∀ (a b : List Char), List.dropWhile p (a ++ c :: b) = List.dropWhile p a ++ c :: b := by
  intro a
  induction a with
  | nil =>
    intro b
    simp [List.dropWhile_cons, hc]
  | cons x a ih =>
    intro b
    by_cases hx : p x = true
    · simp only [List.cons_append, List.dropWhile_cons, hx, if_true]
      exact ih b
    · have hx2 : p x = false := by
        cases hpx : p x
        · rfl
        · exact absurd hpx hx
      simp only [List.cons_append, List.dropWhile_cons, hx2]
      simp

/-- Members of `fragStripL` are never `'#'`. -/
theorem fragStripL_no_hash {l : List Char} : '#' ∉ fragStripL l := by
  intro hmem
  have := List.mem_takeWhile_imp hmem
  simp at this

/-- `fragStripL` fixes lists free of `'#'`. -/
theorem fragStripL_eq_self {l : List Char} (h : '#' ∉ l) : fragStripL l = l := by
  induction l with
  | nil => rfl
  | cons a l ih =>
    have ha : a ≠ '#' := fun he => h (he ▸ List.mem_cons_self a l)
    unfold fragStripL at ih ⊢
    simp only [List.takeWhile_cons, decide_eq_true_eq]
    rw [if_pos ha, ih (fun hm => h (List.mem_cons_of_mem a hm))]

/-- `fragStripL` is idempotent. -/
theorem fragStripL_idem (l : List Char) : fragStripL (fragStripL l) = fragStripL l :=
  fragStripL_eq_self fragStripL_no_hash

/-- `rstripSlashL` only removes elements. -/
theorem rstripSlashL_subset {l : List Char} : rstripSlashL l ⊆ l := by
  intro c hc
  unfold rstripSlashL at hc
  have h1 : c ∈ l.reverse.dropWhile (· = '/') := (List.mem_reverse).mp hc
  have h2 : c ∈ l.reverse := (List.dropWhile_sublist (l := l.reverse) (· = '/')).subset h1
  exact (List.mem_reverse).mp h2

/-- After `rstrip('/')` the string no longer ends in `'/'`. -/
theorem rstripSlashL_not_endsWith (l : List Char) :
    endsWithSlash (⟨rstripSlashL l⟩ : String) = false := by
  show (match (rstripSlashL l).reverse with | [] => false | c :: _ => c = '/') = false
  unfold rstripSlashL
  rw [List.reverse_reverse]
  generalize l.reverse = m
  induction m with
  | nil => rfl
  | cons a m ih =>
    by_cases ha : a = '/'
    · rw [List.dropWhile_cons, if_pos (by simp [ha])]
      exact ih
    · rw [List.dropWhile_cons, if_neg (by simp [ha])]
      simp [ha]

/-- `rstripSlashL` is a prefix: the original is the result plus a run of
slashes. -/
theorem rstripSlashL_append (l : List Char) :
    rstripSlashL l ++ (l.reverse.takeWhile (· = '/')).reverse = l := by
  unfold rstripSlashL
  rw [← List.reverse_append, List.takeWhile_append_dropWhile, List.reverse_reverse]

/-- `soupUnion` distributes over document concatenation. -/
theorem soupUnion_append (f : Element → Finset String) (a b : Soup) :
    soupUnion f (a ++ b) = soupUnion f a ∪ soupUnion f b := by
  unfold soupUnion
  induction a with
  | nil => simp
  | cons e a ih =>
    simp only [List.cons_append, List.foldr_cons, ih, Finset.union_assoc]

/-- A JSON-LD block whose text fails to parse contributes no links
(the bare `except: pass` of lines 209-210). -/
theorem jsonLdContrib_of_parse_failure {e : Element}
    (hld : e.tag = "script" ∧ attrGet e "type" = some "application/ld+json")
    (hfail : ∀ s, e.scriptText = some s → json_loads s = none) :
    jsonLdContrib e = ∅ := by
  cases he : e.scriptText with
  | none => simp [jsonLdContrib, hld.1, hld.2, he]
  | some s =>
    by_cases hs : s = ""
    · simp [jsonLdContrib, hld.1, hld.2, he, hs]
    · simp [jsonLdContrib, hld.1, hld.2, he, hs, hfail s he]

/-- On a successful fetch (HTTP 200, parseable body) the extraction result
is the union of the five strategies' link sets, in source order. -/
theorem extract_links_ok_200 (base : String) (urlArg : Option String)
    (timeout clen : Nat) (finalUrl : String) (ctype : Option String)
    (soup : Soup) (fd ie : Bool) :
    (extract_links base urlArg timeout
        (.ok 200 finalUrl clen ctype (some soup)) fd ie).1
      = soupUnion (anchorContrib base finalUrl fd ie) soup
        ∪ extract_links_from_scripts soup finalUrl
        ∪ soupUnion (linkAreaContrib finalUrl) soup
        ∪ soupUnion (routerContrib finalUrl) soup
        ∪ soupUnion jsonLdContrib soup := rfl

/-- C7: a JSON-LD block whose text fails to parse is silently skipped —
the extraction result is exactly the union of every other strategy's links
over the whole document (the malformed block's text still feeds the
script-scan strategy) together with the JSON-LD links of the remaining
blocks; nothing else is lost. -/
theorem C7_jsonld_parse_failure_isolated (base : String) (urlArg : Option String)
    (timeout clen : Nat) (finalUrl : String) (ctype : Option String) (fd ie : Bool)
    (pre post : Soup) (e : Element)
    (hld : e.tag = "script" ∧ attrGet e "type" = some "application/ld+json")
    (hfail : ∀ s, e.scriptText = some s → json_loads s = none) :
    (extract_links base urlArg timeout
        (.ok 200 finalUrl clen ctype (some (pre ++ e :: post))) fd ie).1
      = soupUnion (anchorContrib base finalUrl fd ie) (pre ++ e :: post)
        ∪ extract_links_from_scripts (pre ++ e :: post) finalUrl
        ∪ soupUnion (linkAreaContrib finalUrl) (pre ++ e :: post)
        ∪ soupUnion (routerContrib finalUrl) (pre ++ e :: post)
        ∪ (soupUnion jsonLdContrib pre ∪ soupUnion jsonLdContrib post) := by
  have h1 : soupUnion jsonLdContrib (pre ++ e :: post)
      = soupUnion jsonLdContrib pre ∪ soupUnion jsonLdContrib post := by
    rw [soupUnion_append]
    have h2 : soupUnion jsonLdContrib (e :: post)
        = jsonLdContrib e ∪ soupUnion jsonLdContrib post := rfl
    rw [h2, jsonLdContrib_of_parse_failure hld hfail, Finset.empty_union]
  rw [extract_links_ok_200, h1]

/-- C7 witness: the isolation theorem applied to a concrete page with an
anchor, a malformed JSON-LD block, and a well-formed JSON-LD block. -/
theorem C7_isolation_witness :
    (extract_links "https://a.com" none 10
        (.ok 200 "https://a.com" 0 none
          (some ([anchorAbout] ++ badLdBlock :: [goodLdBlock]))) false true).1
      = soupUnion (anchorContrib "https://a.com" "https://a.com" false true)
          ([anchorAbout] ++ badLdBlock :: [goodLdBlock])
        ∪ extract_links_from_scripts ([anchorAbout] ++ badLdBlock :: [goodLdBlock])
            "https://a.com"
        ∪ soupUnion (linkAreaContrib "https://a.com")
            ([anchorAbout] ++ badLdBlock :: [goodLdBlock])
        ∪ soupUnion (routerContrib "https://a.com")
            ([anchorAbout] ++ badLdBlock :: [goodLdBlock])
        ∪ (soupUnion jsonLdContrib [anchorAbout] ∪ soupUnion jsonLdContrib [goodLdBlock]) :=
  C7_jsonld_parse_failure_isolated "https://a.com" none 10 0 "https://a.com" none
    false true [anchorAbout] [goodLdBlock] badLdBlock ⟨rfl, rfl⟩
    (fun s hs => by
      have hse : s = "\x7b not json" := by
        simpa [badLdBlock] using hs.symm
      rw [hse]
      rfl)

/-- Strings free of `'#'` are fixed by fragment stripping. -/
theorem fragStrip_eq_self_of_noHash (s : String) (h : '#' ∉ s.data) :
    fragStrip s = s :=
  String.ext (fragStripL_eq_self h)

/-- Fragment stripping twice is fragment stripping once. -/
theorem fragStrip_fragStrip (u : String) : fragStrip (fragStrip u) = fragStrip u :=
  String.ext (fragStripL_idem u.data)

/-- C8: `normalize` is idempotent on its accepted domain — whenever
`_clean_url` returns a link, running it again on that link returns the link
unchanged. -/
theorem C8_normalize_idempotent (u v : String) (h : clean_url u = some v) :
    clean_url v = some v := by
  have hnh1 : '#' ∉ (fragStrip u).data := fragStripL_no_hash
  by_cases he : endsWithSlash (fragStrip u)
  · simp only [clean_url, he, if_true] at h
    cases hp : pyUrlparse (fragStrip u) with
    | none => simp [hp] at h
    | some p =>
      simp only [hp] at h
      by_cases hpath : p.path = "/"
      · have hpath' : ¬(p.path ≠ "/") := by simpa using hpath
        rw [if_neg hpath'] at h
        by_cases hv : is_valid_url (fragStrip u)
        · rw [if_pos hv] at h
          have hveq : v = fragStrip u := (Option.some.inj h).symm
          subst hveq
          simp only [clean_url, fragStrip_fragStrip, he, if_true, hp,
            if_neg hpath', if_pos hv]
        · rw [if_neg hv] at h
          exact absurd h (by simp)
      · rw [if_pos hpath] at h
        by_cases hv : is_valid_url (⟨rstripSlashL (fragStrip u).data⟩ : String)
        · rw [if_pos hv] at h
          have hveq : v = ⟨rstripSlashL (fragStrip u).data⟩ := (Option.some.inj h).symm
          subst hveq
          have hnh2 : '#' ∉ rstripSlashL (fragStrip u).data :=
            fun hm => hnh1 (rstripSlashL_subset hm)
          have hfs : fragStrip (⟨rstripSlashL (fragStrip u).data⟩ : String)
              = ⟨rstripSlashL (fragStrip u).data⟩ :=
            fragStrip_eq_self_of_noHash _ hnh2
          have hes : endsWithSlash (⟨rstripSlashL (fragStrip u).data⟩ : String) = false :=
            rstripSlashL_not_endsWith _
          simp only [clean_url, hfs, hes, Bool.false_eq_true, if_false, if_pos hv]
        · rw [if_neg hv] at h
          exact absurd h (by simp)
  · simp only [clean_url, he, Bool.false_eq_true, if_false] at h
    by_cases hv : is_valid_url (fragStrip u)
    · rw [if_pos hv] at h
      have hveq : v = fragStrip u := (Option.some.inj h).symm
      subst hveq
      simp only [clean_url, fragStrip_fragStrip, he, Bool.false_eq_true, if_false,
        if_pos hv]
    · rw [if_neg hv] at h
      exact absurd h (by simp)

/-- C8 witness: idempotence applied to a link produced from a concrete
fragment-carrying URL. -/
theorem C8_idempotent_witness : clean_url "https://a.com/x" = some "https://a.com/x" :=
  C8_normalize_idempotent "https://a.com/x#sec" "https://a.com/x" (by decide)

/-- C10: the URL helpers are total: `_clean_url` always returns a value —
a string or `None` — and an internal `urlparse` failure yields `None`;
`_is_same_domain` always returns a boolean and yields `False` whenever
either URL fails to parse. -/
theorem C10_helpers_total :
    (∀ base url : String, pyUrlparse base = none ∨ pyUrlparse url = none →
      is_same_domain base url = false) ∧
    (∀ u : String, pyUrlparse (fragStrip u) = none → clean_url u = none) ∧
    (∀ u : String, clean_url u = none ∨ ∃ v, clean_url u = some v) := by
  refine ⟨?_, ?_, ?_⟩
  · intro base url h
    rcases h with h | h
    · simp [is_same_domain, h]
    · cases hb : pyUrlparse base with
      | none => simp [is_same_domain, hb]
      | some b => simp [is_same_domain, hb, h]
  · intro u h
    by_cases he : endsWithSlash (fragStrip u)
    · simp [clean_url, he, h]
    · have hval : is_valid_url (fragStrip u) = false := by
        simp [is_valid_url, h]
      simp [clean_url, he, hval]
  · intro u
    cases h : clean_url u with
    | none => exact Or.inl rfl
    | some v => exact Or.inr ⟨v, rfl⟩

/-- C10 witness: a URL whose netloc carries an unmatched `[` makes
`urlparse` raise; the helpers answer `False` / `None`. -/
theorem C10_failure_witness :
    is_same_domain "http://[x" "http://a.com" = false ∧ clean_url "http://[x/" = none :=
  ⟨C10_helpers_total.1 "http://[x" "http://a.com" (Or.inl (by decide)),
   C10_helpers_total.2.1 "http://[x/" (by decide)⟩

/-! ## Scheme-detection lemmas -/

/-- A successful scheme scan of a prefix survives appending: the first
colon and everything before it are unchanged. -/
theorem splitSchemeAux_append {l1 : List Char} :
    ∀ {pre s r : List Char}, splitSchemeAux pre l1 = some (s, r) →
    ∀ l2, splitSchemeAux pre (l1 ++ l2) = some (s, r ++ l2) := by
  induction l1 with
  | nil => intro pre s r h l2; exact absurd h (by simp [splitSchemeAux])
  | cons c rest ih =>
    intro pre s r h l2
    by_cases hc : c = ':'
    · rw [List.cons_append]
      unfold splitSchemeAux at h ⊢
      rw [if_pos hc] at h ⊢
      by_cases hok : (!pre.isEmpty && isAsciiAlphaChar pre.headI
          && pre.all (fun a => scheme_chars.contains a)) = true
      · rw [if_pos hok] at h ⊢
        obtain ⟨hs, hr⟩ := Prod.mk.injEq .. ▸ Option.some.inj h
        rw [← hs, ← hr]
      · rw [if_neg hok] at h
        exact absurd h (by simp)
    · rw [List.cons_append]
      unfold splitSchemeAux at h ⊢
      rw [if_neg hc] at h ⊢
      exact ih h l2

/-- A successful scheme scan of the fragment-stripped list yields the same
scheme on the full list. -/
theorem splitSchemeAux_takeWhile {l : List Char} :
    ∀ {pre s r : List Char},
    splitSchemeAux pre (l.takeWhile (· ≠ '#')) = some (s, r) →
    ∃ r', splitSchemeAux pre l = some (s, r') := by
  induction l with
  | nil => intro pre s r h; exact absurd h (by simp [splitSchemeAux])
  | cons c rest ih =>
    intro pre s r h
    by_cases hc : c = '#'
    · rw [List.takeWhile_cons, if_neg (by simp [hc])] at h
      exact absurd h (by simp [splitSchemeAux])
    · rw [List.takeWhile_cons, if_pos (by simp [hc])] at h
      by_cases hcc : c = ':'
      · unfold splitSchemeAux at h ⊢
        rw [if_pos hcc] at h ⊢
        by_cases hok : (!pre.isEmpty && isAsciiAlphaChar pre.headI
            && pre.all (fun a => scheme_chars.contains a)) = true
        · rw [if_pos hok] at h ⊢
          obtain ⟨hs, _⟩ := Prod.mk.injEq .. ▸ Option.some.inj h
          exact ⟨rest, by rw [← hs]⟩
        · rw [if_neg hok] at h
          exact absurd h (by simp)
      · unfold splitSchemeAux at h ⊢
        rw [if_neg hcc] at h ⊢
        exact ih h

/-- `nonHttpScheme` survives fragment stripping. -/
theorem nonHttpScheme_fragStrip {l : List Char} (h : nonHttpScheme l) :
    nonHttpScheme (fragStripL l) := by
  intro pr hpr
  obtain ⟨r', hr'⟩ := splitSchemeAux_takeWhile hpr
  exact h (pr.1, r') hr'

/-- `nonHttpScheme` survives trailing-slash stripping. -/
theorem nonHttpScheme_rstrip {l : List Char} (h : nonHttpScheme l) :
    nonHttpScheme (rstripSlashL l) := by
  intro pr hpr
  have happ := splitSchemeAux_append hpr ((l.reverse.takeWhile (· = '/')).reverse)
  rw [rstripSlashL_append l] at happ
  exact h (pr.1, pr.2 ++ (l.reverse.takeWhile (· = '/')).reverse) happ

/-- The scheme field of a `urlsplit` result is the scanned scheme, or the
default when no scheme is detected. -/
theorem pyUrlsplitL_scheme (l : List Char) (d : String) (sp : UrlSplitResult)
    (hp : pyUrlsplitL l d = some sp) :
    sp.scheme = (match splitScheme l with
                 | some pr => (⟨pr.1⟩ : String)
                 | none => d) := by
  unfold pyUrlsplitL at hp
  cases hs : splitScheme l <;> simp only [hs] at hp ⊢
  case none =>
    split at hp
    · split at hp
      · exact absurd hp (by simp)
      · rw [← Option.some.inj hp]
    · split at hp
      · exact absurd hp (by simp)
      · rw [← Option.some.inj hp]
  case some pr =>
    split at hp
    · split at hp
      · exact absurd hp (by simp)
      · rw [← Option.some.inj hp]
    · split at hp
      · exact absurd hp (by simp)
      · rw [← Option.some.inj hp]

/-- The scheme field of a `urlparse` result is the scanned scheme, or the
default when no scheme is detected. -/
theorem pyUrlparseL_scheme (l : List Char) (d : String) (p : UrlParseResult)
    (hp : pyUrlparseL l d = some p) :
    p.scheme = (match splitScheme l with
                | some pr => (⟨pr.1⟩ : String)
                | none => d) := by
  unfold pyUrlparseL at hp
  cases hsp : pyUrlsplitL l d with
  | none => rw [hsp] at hp; simp at hp
  | some sp =>
    rw [hsp] at hp
    simp only [Option.map_some'] at hp
    have hscheme := pyUrlsplitL_scheme l d sp hsp
    rw [← Option.some.inj hp]
    split
    · exact hscheme
    · exact hscheme

/-- Validation fails whenever the detected scheme is not `http`/`https`
(this includes the scheme-less case, where the scheme defaults to ""). -/
theorem is_valid_url_false_of_nonHttp (s : String) (h : nonHttpScheme s.data) :
    is_valid_url s = false := by
  cases hp : pyUrlparse s with
  | none => simp [is_valid_url, hp]
  | some p =>
    have hsch := pyUrlparseL_scheme s.data "" p hp
    cases hs : splitScheme s.data with
    | none =>
      rw [hs] at hsch
      simp [is_valid_url, hp, hsch]
    | some pr =>
      rw [hs] at hsch
      have hne := h pr hs
      simp only [is_valid_url, hp]
      split
      · rfl
      · rw [if_pos (by simp [hsch, hne.1, hne.2])]

/-- `_clean_url` rejects every URL whose detected scheme is not
`http`/`https`. -/
theorem clean_url_none_of_nonHttp (u : String) (h : nonHttpScheme u.data) :
    clean_url u = none := by
  have h1 : nonHttpScheme (fragStrip u).data := nonHttpScheme_fragStrip h
  by_cases he : endsWithSlash (fragStrip u)
  · cases hp : pyUrlparse (fragStrip u) with
    | none => simp [clean_url, he, hp]
    | some p =>
      by_cases hpath : p.path = "/"
      · have hv := is_valid_url_false_of_nonHttp _ h1
        simp [clean_url, he, hp, hpath, hv]
      · have h2 : nonHttpScheme (rstripSlashL (fragStrip u).data) :=
          nonHttpScheme_rstrip h1
        have hv := is_valid_url_false_of_nonHttp
          (⟨rstripSlashL (fragStrip u).data⟩ : String) h2
        simp [clean_url, he, hp, hpath, hv]
  · have hv := is_valid_url_false_of_nonHttp _ h1
    simp [clean_url, he, hv]

/-- Scheme scan of a `javascript:`-prefixed list. -/
theorem splitScheme_javascript (t : List Char) :
    splitScheme ("javascript:".data ++ t) = some ("javascript".data, t) := rfl

/-- Scheme scan of a `mailto:`-prefixed list. -/
theorem splitScheme_mailto (t : List Char) :
    splitScheme ("mailto:".data ++ t) = some ("mailto".data, t) := rfl

/-- Scheme scan of a `tel:`-prefixed list. -/
theorem splitScheme_tel (t : List Char) :
    splitScheme ("tel:".data ++ t) = some ("tel".data, t) := rfl

/-- Scheme scan of a `data:`-prefixed list. -/
theorem splitScheme_data (t : List Char) :
    splitScheme ("data:".data ++ t) = some ("data".data, t) := rfl

/-- Everything a `True` verdict of `_is_valid_url` guarantees: parseable,
`http`/`https` scheme, non-empty netloc free of the four dangerous
characters, at most 2000 characters, and at most one occurrence each of
`http://` and `https://`. -/
theorem is_valid_url_true_spec (s : String) (h : is_valid_url s = true) :
    ∃ p, pyUrlparse s = some p ∧ (p.scheme = "http" ∨ p.scheme = "https") ∧
      p.netloc ≠ "" ∧
      (∀ c ∈ p.netloc.data, c ≠ '<' ∧ c ≠ '>' ∧ c ≠ '"' ∧ c ≠ '\'') ∧
      s.length ≤ 2000 ∧
      countSub "http://".data s.data ≤ 1 ∧ countSub "https://".data s.data ≤ 1 := by
  cases hp : pyUrlparse s with
  | none =>
    simp only [is_valid_url, hp] at h
    exact absurd h (by simp)
  | some p =>
    simp only [is_valid_url, hp] at h
    split at h
    · simp at h
    · split at h
      · simp at h
      · split at h
        · simp at h
        · split at h
          · simp at h
          · split at h
            · simp at h
            · split at h
              · simp at h
              · rename_i hc1 hc2 hc3 hc4 hc5 hc6
                simp only [Bool.or_eq_true, decide_eq_true_eq, not_or] at hc1
                simp only [Bool.not_eq_true', Bool.or_eq_false_iff,
                  decide_eq_false_iff_not] at hc2
                simp only [Bool.or_eq_true, decide_eq_true_eq, not_or] at hc4
                simp only [List.any_eq_true, Bool.or_eq_true, decide_eq_true_eq] at hc6
                refine ⟨p, rfl, ?_, hc1.2, ?_, by omega, ?_, ?_⟩
                · by_cases hsc : p.scheme = "http"
                  · exact Or.inl hsc
                  · by_cases hsc2 : p.scheme = "https"
                    · exact Or.inr hsc2
                    · exact absurd ⟨hsc, hsc2⟩ hc2
                · intro c hc
                  have hall := hc6
                  push_neg at hall
                  have h4 := hall c hc
                  exact ⟨h4.1.1.1, h4.1.1.2, h4.1.2, h4.2⟩
                · rw [show ("http://".data : List Char)
                      = ['h', 't', 't', 'p', ':', '/', '/'] from rfl]
                  omega
                · rw [show ("https://".data : List Char)
                      = ['h', 't', 't', 'p', 's', ':', '/', '/'] from rfl]
                  omega

/-- Shape of an `if valid then some ... else none` success. -/
theorem ite_valid_eq_some {X v : String}
    (h : (if is_valid_url X then some X else none) = some v) :
    is_valid_url v = true ∧ v = X := by
  by_cases hv : is_valid_url X
  · rw [if_pos hv] at h
    have hXv := Option.some.inj h
    exact ⟨hXv ▸ hv, hXv.symm⟩
  · rw [if_neg hv] at h
    exact absurd h (by simp)

/-- A link returned by `_clean_url` passed validation and carries no
fragment. -/
theorem clean_url_some_shape (u v : String) (h : clean_url u = some v) :
    is_valid_url v = true ∧ '#' ∉ v.data := by
  by_cases he : endsWithSlash (fragStrip u)
  · simp only [clean_url, he, if_true] at h
    cases hp : pyUrlparse (fragStrip u) with
    | none => simp [hp] at h
    | some p =>
      simp only [hp] at h
      by_cases hpath : p.path = "/"
      · have hpath' : ¬(p.path ≠ "/") := by simpa using hpath
        rw [if_neg hpath'] at h
        obtain ⟨hv, hveq⟩ := ite_valid_eq_some h
        refine ⟨hv, ?_⟩
        rw [hveq]
        exact fragStripL_no_hash
      · rw [if_pos hpath] at h
        obtain ⟨hv, hveq⟩ := ite_valid_eq_some h
        refine ⟨hv, ?_⟩
        rw [hveq]
        exact fun hm => fragStripL_no_hash (rstripSlashL_subset hm)
  · simp only [clean_url, he, Bool.false_eq_true, if_false] at h
    obtain ⟨hv, hveq⟩ := ite_valid_eq_some h
    refine ⟨hv, ?_⟩
    rw [hveq]
    exact fragStripL_no_hash

/-- C9 (amended): `normalize` returns `None` for every scheme-less input,
every `javascript:`- and `mailto:`-prefixed input; the length rule holds in
the form the code implements it: every returned link has at most 2000
characters, i.e. the ceiling is checked after fragment and trailing-slash
stripping, so an over-length input whose excess lies in the fragment is not
rejected (see the counterexample).  Rejections are `None` values — the
model is total, nothing is raised. -/
theorem C9_normalize_rejections :
    (∀ u : String, splitScheme u.data = none → clean_url u = none) ∧
    (∀ u : String, pyStartswith u "javascript:" = true → clean_url u = none) ∧
    (∀ u : String, pyStartswith u "mailto:" = true → clean_url u = none) ∧
    (∀ u v : String, clean_url u = some v → v.length ≤ 2000) := by
  refine ⟨?_, ?_, ?_, ?_⟩
  · intro u h
    apply clean_url_none_of_nonHttp
    intro pr hpr
    rw [h] at hpr
    exact absurd hpr (by simp)
  · intro u h
    apply clean_url_none_of_nonHttp
    have ht := eq_append_drop_of_isPrefixOf (p := "javascript:".data) h
    intro pr hpr
    rw [← ht, splitScheme_javascript] at hpr
    have h1 : pr.1 = "javascript".data := by
      rw [← Option.some.inj hpr]
    rw [h1]
    exact ⟨by decide, by decide⟩
  · intro u h
    apply clean_url_none_of_nonHttp
    have ht := eq_append_drop_of_isPrefixOf (p := "mailto:".data) h
    intro pr hpr
    rw [← ht, splitScheme_mailto] at hpr
    have h1 : pr.1 = "mailto".data := by
      rw [← Option.some.inj hpr]
    rw [h1]
    exact ⟨by decide, by decide⟩
  · intro u v h
    have hv := (clean_url_some_shape u v h).1
    obtain ⟨p, _, _, _, _, hlen, _, _⟩ := is_valid_url_true_spec v hv
    exact hlen

/-- C9 witness: the rejection rules applied at concrete inputs. -/
theorem C9_rejections_witness :
    clean_url "nope" = none ∧ clean_url "javascript:alert(1)" = none ∧
    clean_url "mailto:x@y" = none ∧ ("https://ok.com/x" : String).length ≤ 2000 :=
  ⟨C9_normalize_rejections.1 "nope" (by decide),
   C9_normalize_rejections.2.1 "javascript:alert(1)" (by decide),
   C9_normalize_rejections.2.2.1 "mailto:x@y" (by decide),
   C9_normalize_rejections.2.2.2 "https://ok.com/x#f" "https://ok.com/x" (by decide)⟩

/-- Every link `_clean_url` returns satisfies the CanonicalLink invariant. -/
theorem canonicalInv_of_clean (u v : String) (h : clean_url u = some v) :
    canonicalInv v := by
  obtain ⟨hvalid, hnh⟩ := clean_url_some_shape u v h
  obtain ⟨p, hp, hsch, hnet, hchars, hlen, hcnt1, hcnt2⟩ := is_valid_url_true_spec v hvalid
  exact ⟨⟨p, hp, hsch, hnet, hchars⟩, hnh, hlen, hcnt1, hcnt2⟩

/-- Membership in a per-element union names a witnessing element. -/
theorem mem_soupUnion {f : Element → Finset String} {soup : Soup} {l : String}
    (hl : l ∈ soupUnion f soup) : ∃ e ∈ soup, l ∈ f e := by
  induction soup with
  | nil => simp [soupUnion] at hl
  | cons e rest ih =>
    rcases Finset.mem_union.mp hl with h | h
    · exact ⟨e, List.mem_cons_self e rest, h⟩
    · obtain ⟨e', he', hle'⟩ := ih h
      exact ⟨e', List.mem_cons_of_mem e he', hle'⟩

/-- Links contributed by the anchor loop come out of `_clean_url`. -/
theorem anchorContrib_clean {base final : String} {fd ie : Bool} {e : Element}
    {l : String} (hl : l ∈ anchorContrib base final fd ie e) :
    ∃ u, clean_url u = some l := by
  simp only [anchorContrib] at hl
  by_cases h1 : (e.tag = "a" && hasAttr e "href") = true
  · rw [if_pos h1] at hl
    by_cases h2 : skipHref (pyStrip ((attrGet e "href").getD "")) = true
    · rw [if_pos h2] at hl
      simp at hl
    · rw [if_neg h2] at hl
      cases h3 : pyUrljoin final (pyStrip ((attrGet e "href").getD "")) with
      | none => simp [h3] at hl
      | some a =>
        simp only [h3] at hl
        cases h4 : clean_url a with
        | none => simp [h4] at hl
        | some cu =>
          simp only [h4] at hl
          have hcu : l = cu := by
            split at hl
            · split at hl
              · exact Finset.mem_singleton.mp hl
              · simp at hl
            · exact Finset.mem_singleton.mp hl
          exact ⟨a, by rw [h4, hcu]⟩
  · rw [if_neg h1] at hl
    simp at hl

/-- Links contributed by a `data-href` attribute come out of `_clean_url`. -/
theorem dataHrefContrib_clean {base : String} {e : Element} {l : String}
    (hl : l ∈ dataHrefContrib base e) : ∃ u, clean_url u = some l := by
  simp only [dataHrefContrib] at hl
  cases h0 : attrGet e "data-href" with
  | none => simp [h0] at hl
  | some h =>
    simp only [h0] at hl
    split at hl
    · cases h3 : pyUrljoin base (pyStrip h) with
      | none => simp [h3] at hl
      | some a =>
        simp only [h3] at hl
        cases h4 : clean_url a with
        | none => simp [h4] at hl
        | some cu =>
          simp only [h4] at hl
          exact ⟨a, by rw [h4, Finset.mem_singleton.mp hl]⟩
    · simp at hl

/-- Links contributed by the `link`/`area` loop come out of `_clean_url`. -/
theorem linkAreaContrib_clean {final : String} {e : Element} {l : String}
    (hl : l ∈ linkAreaContrib final e) : ∃ u, clean_url u = some l := by
  simp only [linkAreaContrib] at hl
  by_cases h1 : ((e.tag = "link" || e.tag = "area") && hasAttr e "href") = true
  · rw [if_pos h1] at hl
    split at hl
    · cases h3 : pyUrljoin final (pyStrip ((attrGet e "href").getD "")) with
      | none => simp [h3] at hl
      | some a =>
        simp only [h3] at hl
        cases h4 : clean_url a with
        | none => simp [h4] at hl
        | some cu =>
          simp only [h4] at hl
          exact ⟨a, by rw [h4, Finset.mem_singleton.mp hl]⟩
    · simp at hl
  · rw [if_neg h1] at hl
    simp at hl

/-- Links contributed by a `routerlink` attribute come out of `_clean_url`. -/
theorem routerContrib_clean {final : String} {e : Element} {l : String}
    (hl : l ∈ routerContrib final e) : ∃ u, clean_url u = some l := by
  simp only [routerContrib] at hl
  cases h0 : attrGet e "routerlink" with
  | none => simp [h0] at hl
  | some h =>
    simp only [h0] at hl
    split at hl
    · cases h3 : pyUrljoin final (pyStrip h) with
      | none => simp [h3] at hl
      | some a =>
        simp only [h3] at hl
        cases h4 : clean_url a with
        | none => simp [h4] at hl
        | some cu =>
          simp only [h4] at hl
          exact ⟨a, by rw [h4, Finset.mem_singleton.mp hl]⟩
    · simp at hl

/-- Links accumulated by the script URL scan come out of `_clean_url`. -/
theorem foldr_clean_insert {l : String} :
    ∀ (us : List String) (acc : Finset String),
      (∀ x ∈ acc, ∃ u, clean_url u = some x) →
      l ∈ us.foldr (fun u acc => match clean_url u with
                                 | some cu => insert cu acc
                                 | none => acc) acc →
      ∃ u, clean_url u = some l := by
  intro us
  induction us with
  | nil => intro acc hacc hl; exact hacc l hl
  | cons u us ih =>
    intro acc hacc hl
    simp only [List.foldr_cons] at hl
    cases hc : clean_url u with
    | none =>
      simp only [hc] at hl
      exact ih acc hacc hl
    | some cu =>
      simp only [hc] at hl
      rcases Finset.mem_insert.mp hl with h | h
      · exact ⟨u, by rw [hc, h]⟩
      · exact ih acc hacc h

/-- Links contributed by the script URL scan come out of `_clean_url`. -/
theorem scriptContrib_clean {e : Element} {l : String}
    (hl : l ∈ scriptContrib e) : ∃ u, clean_url u = some l := by
  simp only [scriptContrib] at hl
  by_cases h1 : e.tag = "script"
  · rw [if_pos h1] at hl
    cases h0 : e.scriptText with
    | none => simp [h0] at hl
    | some s =>
      simp only [h0] at hl
      split at hl
      · exact foldr_clean_insert (findUrls s) ∅ (by simp) hl
      · simp at hl
  · rw [if_neg h1] at hl
    simp at hl

/-- An `http`-prefixed string keeps its prefix — and loses any fragment —
under fragment stripping. -/
theorem fragStrip_keeps_http {v : String} (hv : pyStartswith v "http" = true) :
    pyStartswith (fragStrip v) "http" = true ∧ '#' ∉ (fragStrip v).data := by
  refine ⟨?_, fragStripL_no_hash⟩
  have ht := eq_append_drop_of_isPrefixOf (p := "http".data) hv
  show List.isPrefixOf "http".data (fragStripL v.data) = true
  have hrw : fragStripL v.data
      = "http".data ++ fragStripL (List.drop "http".data.length v.data) := by
    conv_lhs => rw [← ht]
    exact takeWhile_append_of_all (by decide) _
  rw [hrw]
  exact isPrefixOf_self_append _ _

/-- Every link harvested from one JSON-LD value starts with `http` and has
no fragment. -/
theorem jsonItemLinks_weak {j : PyJson} {l : String} (hl : l ∈ jsonItemLinks j) :
    pyStartswith l "http" = true ∧ '#' ∉ l.data := by
  cases j with
  | jstr v =>
    simp only [jsonItemLinks] at hl
    by_cases hv : pyStartswith v "http" = true
    · rw [if_pos hv] at hl
      rw [Finset.mem_singleton.mp hl]
      exact fragStrip_keeps_http hv
    · rw [if_neg hv] at hl
      simp at hl
  | jnull => simp [jsonItemLinks] at hl
  | jbool b => simp [jsonItemLinks] at hl
  | jnum m => simp [jsonItemLinks] at hl
  | jarr xs => simp [jsonItemLinks] at hl
  | jobj es => simp [jsonItemLinks] at hl

/-- Every link harvested from one JSON-LD value starts with `http` and has
no fragment. -/
theorem jsonValLinks_weak {j : PyJson} {l : String} (hl : l ∈ jsonValLinks j) :
    pyStartswith l "http" = true ∧ '#' ∉ l.data := by
  cases j with
  | jstr v =>
    simp only [jsonValLinks] at hl
    by_cases hv : pyStartswith v "http" = true
    · rw [if_pos hv] at hl
      rw [Finset.mem_singleton.mp hl]
      exact fragStrip_keeps_http hv
    · rw [if_neg hv] at hl
      simp at hl
  | jarr items =>
    simp only [jsonValLinks] at hl
    induction items with
    | nil => simp at hl
    | cons it rest ih =>
      simp only [List.foldr_cons] at hl
      rcases Finset.mem_union.mp hl with h | h
      · exact jsonItemLinks_weak h
      · exact ih h
  | jnull => simp [jsonValLinks] at hl
  | jbool b => simp [jsonValLinks] at hl
  | jnum m => simp [jsonValLinks] at hl
  | jobj es => simp [jsonValLinks] at hl

/-- Every link harvested from a JSON-LD block starts with `http` and has no
fragment. -/
theorem jsonLdContrib_weak {e : Element} {l : String} (hl : l ∈ jsonLdContrib e) :
    pyStartswith l "http" = true ∧ '#' ∉ l.data := by
  simp only [jsonLdContrib] at hl
  split at hl
  · cases h0 : e.scriptText with
    | none => simp [h0] at hl
    | some s =>
      simp only [h0] at hl
      split at hl
      · cases hj : json_loads s with
        | none => simp [hj] at hl
        | some jv =>
          simp only [hj] at hl
          cases jv with
          | jobj entries =>
            clear hj
            induction entries with
            | nil => simp at hl
            | cons kv rest ih =>
              simp only [List.foldr_cons] at hl
              rcases Finset.mem_union.mp hl with h | h
              · exact jsonValLinks_weak h
              · exact ih h
          | jnull => simp at hl
          | jbool b => simp at hl
          | jnum m => simp at hl
          | jstr v => simp at hl
          | jarr xs => simp at hl
      · simp at hl
  · simp at hl

/-- C2 (amended): every link returned by a successful extraction either
satisfies the full CanonicalLink invariant (all links that passed
`_clean_url`), or was harvested from a JSON-LD block, in which case only a
weaker guarantee holds: it begins with `http` and contains no fragment —
JSON-LD links bypass `_is_valid_url` entirely (see the counterexample). -/
theorem C2_canonical_invariant (base : String) (urlArg : Option String)
    (timeout clen : Nat) (finalUrl : String) (ctype : Option String)
    (soup : Soup) (fd ie : Bool) (l : String)
    (hl : l ∈ (extract_links base urlArg timeout
      (.ok 200 finalUrl clen ctype (some soup)) fd ie).1) :
    canonicalInv l ∨
      (l ∈ soupUnion jsonLdContrib soup ∧
        pyStartswith l "http" = true ∧ '#' ∉ l.data) := by
  rw [extract_links_ok_200] at hl
  rcases Finset.mem_union.mp hl with h | hj
  · rcases Finset.mem_union.mp h with h | hr
    · rcases Finset.mem_union.mp h with h | hla
      · rcases Finset.mem_union.mp h with ha | hs
        · obtain ⟨e, _, hle⟩ := mem_soupUnion ha
          obtain ⟨u, hu⟩ := anchorContrib_clean hle
          exact Or.inl (canonicalInv_of_clean u l hu)
        · rcases Finset.mem_union.mp hs with hsc | hd
          · obtain ⟨e, _, hle⟩ := mem_soupUnion hsc
            obtain ⟨u, hu⟩ := scriptContrib_clean hle
            exact Or.inl (canonicalInv_of_clean u l hu)
          · obtain ⟨e, _, hle⟩ := mem_soupUnion hd
            obtain ⟨u, hu⟩ := dataHrefContrib_clean hle
            exact Or.inl (canonicalInv_of_clean u l hu)
      · obtain ⟨e, _, hle⟩ := mem_soupUnion hla
        obtain ⟨u, hu⟩ := linkAreaContrib_clean hle
        exact Or.inl (canonicalInv_of_clean u l hu)
    · obtain ⟨e, _, hle⟩ := mem_soupUnion hr
      obtain ⟨u, hu⟩ := routerContrib_clean hle
      exact Or.inl (canonicalInv_of_clean u l hu)
  · refine Or.inr ⟨hj, ?_⟩
    obtain ⟨e, _, hle⟩ := mem_soupUnion hj
    exact jsonLdContrib_weak hle

/-- C2 witness: the invariant disjunction at a link of a concrete page. -/
theorem C2_invariant_witness :
    canonicalInv "https://a.com/about" ∨
      ("https://a.com/about" ∈ soupUnion jsonLdContrib [anchorAbout] ∧
        pyStartswith "https://a.com/about" "http" = true ∧
        '#' ∉ ("https://a.com/about" : String).data) :=
  C2_canonical_invariant "https://a.com" none 10 0 "https://a.com" none
    [anchorAbout] false true "https://a.com/about"
    (by
      have hset : (extract_links "https://a.com" none 10
          (.ok 200 "https://a.com" 0 none (some [anchorAbout])) false true).1
          = {"https://a.com/about"} := by decide
      rw [hset]
      exact Finset.mem_singleton_self _)

/-- `urljoin` returns the reference unchanged (or propagates a parse
error) when the reference's scheme is outside `uses_relative`. -/
theorem urljoin_nonrelative (base url : String) (nm rest : List Char)
    (hscan : splitScheme url.data = some (nm, rest))
    (hrel : uses_relative.contains (⟨nm⟩ : String) = false) :
    pyUrljoin base url = some url ∨ pyUrljoin base url = none := by
  unfold pyUrljoin
  by_cases hb : base = ""
  · rw [if_pos hb]
    exact Or.inl rfl
  · rw [if_neg hb]
    by_cases hu : url = ""
    · exfalso
      rw [hu] at hscan
      exact absurd hscan (by simp [splitScheme, splitSchemeAux])
    · rw [if_neg hu]
      cases hpb : pyUrlparseL base.data "" with
      | none => exact Or.inr rfl
      | some b =>
        simp only [hpb]
        cases hpr : pyUrlparseL url.data b.scheme with
        | none => exact Or.inr rfl
        | some r =>
          simp only [hpr]
          have hsch := pyUrlparseL_scheme url.data b.scheme r hpr
          simp only [hscan] at hsch
          left
          rw [if_pos (by rw [hsch, hrel]; simp)]

/-- The tail of the `link`/`area` loop body rejects any href whose scheme
is neither relative nor `http`/`https`. -/
theorem joinCleanTail_scheme_reject (final href : String) (nm rest : List Char)
    (hscan : splitScheme href.data = some (nm, rest))
    (hrel : uses_relative.contains (⟨nm⟩ : String) = false)
    (hhttp : (⟨nm⟩ : String) ≠ "http") (hhttps : (⟨nm⟩ : String) ≠ "https") :
    (match pyUrljoin final href with
     | none => (∅ : Finset String)
     | some absolute_url =>
       match clean_url absolute_url with
       | some cu => {cu}
       | none => ∅) = ∅ := by
  have hnon : nonHttpScheme href.data := by
    intro pr hpr
    rw [hscan] at hpr
    have h1 : pr.1 = nm := by rw [← Option.some.inj hpr]
    rw [h1]
    exact ⟨hhttp, hhttps⟩
  have hclean := clean_url_none_of_nonHttp href hnon
  rcases urljoin_nonrelative final href nm rest hscan hrel with hj | hj
  · simp only [hj, hclean]
  · simp only [hj]

/-- C4 (amended): the anchor loop skips href values that are empty after
trimming or begin with `javascript:`, `mailto:`, `tel:`, `#`, or `data:`;
the `link`/`area` loop, however, skips only empty and `javascript:` values.
`mailto:`, `tel:` and `data:` values on `link`/`area` still never produce a
link, because URL validation rejects their schemes — but a `#`-prefixed
href on `link`/`area` resolves against the page URL and can produce a link
(see the counterexample). -/
theorem C4_href_skip_rules :
    (∀ (base final : String) (fd ie : Bool) (e : Element),
      e.tag = "a" →
      skipHref (pyStrip ((attrGet e "href").getD "")) = true →
      anchorContrib base final fd ie e = ∅) ∧
    (∀ (final : String) (e : Element),
      (pyStartswith (pyStrip ((attrGet e "href").getD "")) "mailto:"
        || pyStartswith (pyStrip ((attrGet e "href").getD "")) "tel:"
        || pyStartswith (pyStrip ((attrGet e "href").getD "")) "data:") = true →
      linkAreaContrib final e = ∅) := by
  constructor
  · intro base final fd ie e _ hskip
    simp only [anchorContrib]
    by_cases h1 : (e.tag = "a" && hasAttr e "href") = true
    · rw [if_pos h1, if_pos hskip]
    · rw [if_neg h1]
  · intro final e h
    simp only [linkAreaContrib]
    by_cases h1 : ((e.tag = "link" || e.tag = "area") && hasAttr e "href") = true
    · rw [if_pos h1]
      by_cases h2 : (pyStrip ((attrGet e "href").getD "") ≠ ""
          && !pyStartswith (pyStrip ((attrGet e "href").getD "")) "javascript:") = true
      · rw [if_pos h2]
        rcases Bool.or_eq_true_iff.mp h with h' | hdata
        · rcases Bool.or_eq_true_iff.mp h' with hmailto | htel
          · have ht := eq_append_drop_of_isPrefixOf (p := "mailto:".data) hmailto
            have hscan := splitScheme_mailto
              (List.drop "mailto:".data.length (pyStrip ((attrGet e "href").getD "")).data)
            rw [ht] at hscan
            exact joinCleanTail_scheme_reject final _ _ _ hscan
              (by decide) (by decide) (by decide)
          · have ht := eq_append_drop_of_isPrefixOf (p := "tel:".data) htel
            have hscan := splitScheme_tel
              (List.drop "tel:".data.length (pyStrip ((attrGet e "href").getD "")).data)
            rw [ht] at hscan
            exact joinCleanTail_scheme_reject final _ _ _ hscan
              (by decide) (by decide) (by decide)
        · have ht := eq_append_drop_of_isPrefixOf (p := "data:".data) hdata
          have hscan := splitScheme_data
            (List.drop "data:".data.length (pyStrip ((attrGet e "href").getD "")).data)
          rw [ht] at hscan
          exact joinCleanTail_scheme_reject final _ _ _ hscan
            (by decide) (by decide) (by decide)
      · rw [if_neg h2]
    · rw [if_neg h1]

/-- C4 witness: the skip rules applied to a concrete anchor with a
fragment-only href and a concrete `link` element with a `mailto:` href. -/
theorem C4_skip_witness :
    anchorContrib "https://a.com" "https://a.com" true false
      ⟨"a", [("href", "#x")], none⟩ = ∅ ∧
    linkAreaContrib "https://a.com" ⟨"link", [("href", "mailto:x@y")], none⟩ = ∅ :=
  ⟨C4_href_skip_rules.1 "https://a.com" "https://a.com" true false
      ⟨"a", [("href", "#x")], none⟩ rfl (by decide),
   C4_href_skip_rules.2 "https://a.com" ⟨"link", [("href", "mailto:x@y")], none⟩
      (by decide)⟩
